import Mathlib

/-!
# Verification of the steppe video-generation pipeline

A shallow embedding of the job-pipeline core of the repository:
the submission controller (`ArticleController.generateVideo`,
`ArticleController.processVideoGeneration`), the media selection rule
(`MediaService.getBestVideoForTikTok`), subtitle generation
(`VideoService.generateSubtitles`), segment planning
(`VideoService.createContentSegments`) and the long-text synthesis path
(`VoiceService.splitText` / `synthesizeLongText` / `mergeAudioFiles`).

JavaScript strings are modelled as `List Char` indexed by `Nat`; numbers that
can be fractional (durations, relevance scores) as `ℚ`; fallible calls as
`Option` / `Except`; the document store as a list of jobs with each
`findByIdAndUpdate` an explicit state change.
-/

/-! ## JavaScript string primitives -/

/-- `leadsList pat s` : `pat` is an initial run of `s` (character-wise). -/
def leadsList : List Char → List Char → Bool
  | [], _ => true
  | _ :: _, [] => false
  | a :: as, b :: bs => a == b && leadsList as bs

/-- `hasSubList pat s` : `pat` occurs contiguously somewhere in `s`;
this is JavaScript's `s.includes(pat)`. -/
def hasSubList : List Char → List Char → Bool
  | pat, [] => leadsList pat []
  | pat, c :: rest => leadsList pat (c :: rest) || hasSubList pat rest

/-- JavaScript `String.prototype.includes`. -/
def jsIncludes (s pat : String) : Bool :=
  hasSubList pat.data s.data

/-- The whitespace class matched by JavaScript's `\s` and removed by `trim`
(restricted to the characters that can actually occur here). -/
def jsIsSpace (c : Char) : Bool :=
  c == ' ' || c == '\t' || c == '\n' || c == '\r' || c == '\x0b' || c == '\x0c'

/-- JavaScript `String.prototype.trim`. -/
def jsTrim (s : List Char) : List Char :=
  ((s.dropWhile jsIsSpace).reverse.dropWhile jsIsSpace).reverse

/-- JavaScript `s.split(sep)` for a one-character separator: empty pieces
between adjacent separators are kept, and the empty string splits to `[""]`. -/
def jsSplitChar (sep : Char) : List Char → List (List Char)
  | [] => [[]]
  | c :: rest =>
    match jsSplitChar sep rest with
    | [] => [[]]
    | p :: ps => if c == sep then [] :: p :: ps else (c :: p) :: ps

/-- `jsSplitChar` never returns an empty list of pieces. -/
theorem jsSplitChar_ne_nil (sep : Char) (s : List Char) : jsSplitChar sep s ≠ [] := by
  cases s with
  | nil => simp [jsSplitChar]
  | cons c rest =>
    simp only [jsSplitChar]
    rcases h : jsSplitChar sep rest with _ | ⟨p, ps⟩
    · simp
    · dsimp only
      split <;> simp

/-- Length bound used for termination of run-splitting. -/
theorem length_dropWhile_le' (p : Char → Bool) (l : List Char) :
    (l.dropWhile p).length ≤ l.length := by
  induction l with
  | nil => simp [List.dropWhile]
  | cons a t ih =>
    by_cases h : p a
    · simp only [List.dropWhile, h]
      exact Nat.le_succ_of_le ih
    · simp [List.dropWhile, h]

/-- JavaScript `s.split(re)` where `re` matches a nonempty run of characters
in the class `inClass` (the `+`-quantified character-class split): each maximal
run of class characters is one separator. -/
def jsSplitRuns (inClass : Char → Bool) : List Char → List (List Char)
  | [] => [[]]
  | c :: rest =>
    if inClass c then
      [] :: jsSplitRuns inClass (rest.dropWhile inClass)
    else
      match jsSplitRuns inClass rest with
      | [] => [[]]
      | p :: ps => (c :: p) :: ps
termination_by l => l.length
decreasing_by
  · exact Nat.lt_succ_of_le (length_dropWhile_le' inClass rest)
  · exact Nat.lt_succ_self _

/-- JavaScript `s.lastIndexOf(c, fromIdx)` for a single character: the largest
index `i ≤ fromIdx` (and `i < s.length`) with `s[i] = c`, else `-1`. -/
def jsLastIndexOfFrom (s : List Char) (c : Char) (fromIdx : ℕ) : ℤ :=
  match ((List.range (min (fromIdx + 1) s.length)).filter
      (fun i => s.getD i ' ' == c)).getLast? with
  | some i => (i : ℤ)
  | none => -1

/-- JavaScript `s.substring(start, stop)` for `start ≤ stop`. -/
def jsSubstring (s : List Char) (start stop : ℕ) : List Char :=
  (s.drop start).take (stop - start)

/-- ASCII plus Cyrillic lower-casing, as JavaScript `toLowerCase` acts on
the characters occurring in this code base (A–Z, А–Я, Ё). -/
def jsToLower (c : Char) : Char :=
  if 'A' ≤ c ∧ c ≤ 'Z' then Char.ofNat (c.toNat + 32)
  else if 'А' ≤ c ∧ c ≤ 'Я' then Char.ofNat (c.toNat + 32)
  else if c = 'Ё' then 'ё'
  else c

/-! ## Data model -/

/-- Persisted job status (`pending | processing | done | error`). -/
inductive Status where
  | pending
  | processing
  | done
  | error
deriving DecidableEq, Repr

/-- The persisted `Job` document (`src/models/Job.ts` layout as used by
`ArticleController`); unset optional fields are `none`. -/
structure Job where
  id : ℕ
  url : String
  status : Status
  title : Option String := none
  content : Option String := none
  audioPath : Option String := none
  audioDuration : Option ℚ := none
  videoPath : Option String := none
  videoDuration : Option ℚ := none
  videoSize : Option ℕ := none
  videoResolution : Option String := none
  hasSubtitles : Option Bool := none
  videoUrl : Option String := none
  error : Option String := none
deriving DecidableEq, Repr

/-- A freshly created job (`new Job({url, status: 'pending'})`). -/
def freshJob (id : ℕ) (url : String) : Job :=
  { id := id, url := url, status := .pending }

/-- Result of `scrapeSteppeArticle`. -/
structure Article where
  title : String
  text : String
deriving DecidableEq, Repr

/-- `AIService.processArticle` payload. -/
structure ProcessedContent where
  summary : String
  keyPoints : List String
  script : String
  tags : List String
deriving DecidableEq, Repr

/-- `VoiceService` result: the audio artifact and an optional duration
(`VoiceResult` in `voiceService.ts`; `duration` is optional there). -/
structure VoiceResult where
  audioPath : String
  duration : Option ℚ := none
deriving DecidableEq, Repr

/-- Media quality tier. -/
inductive Quality where
  | hd
  | sd
deriving DecidableEq, Repr

/-- Media type. -/
inductive MediaType where
  | image
  | video
deriving DecidableEq, Repr

/-- A candidate background asset (`MediaItem` in `mediaService.ts`). -/
structure MediaItem where
  id : ℕ
  url : String
  previewUrl : String
  type : MediaType
  duration : Option ℚ := none
  tags : List String := []
  relevanceScore : Option ℚ := none
  quality : Quality
deriving DecidableEq, Repr

/-- `MediaSearchResult` returned by `MediaService.getMediaForArticle`. -/
structure MediaSearchResult where
  videos : List MediaItem
  images : List MediaItem
  searchQuery : String
  totalFound : ℕ
deriving DecidableEq, Repr

/-- `VideoResult` returned by `VideoService.assembleVideo`. -/
structure VideoResult where
  videoPath : String
  duration : ℚ
  size : ℕ
  resolution : String
  hasSubtitles : Bool
deriving DecidableEq, Repr

/-! ## MediaService: the TikTok selection rule -/

/-- The combined score used by `getBestVideoForTikTok`'s sort:
`(relevanceScore || 0) + (quality === 'hd' ? 0.3 : 0)`. -/
def tiktokScore (v : MediaItem) : ℚ :=
  (v.relevanceScore.getD 0) + (if v.quality = .hd then 3/10 else 0)

/-- `video.duration && video.duration >= 15 && video.duration <= 60`:
a reported, truthy duration within the 15–60 s band. -/
def suitableDuration (v : MediaItem) : Bool :=
  match v.duration with
  | none => false
  | some d => d != 0 && decide (15 ≤ d) && decide (d ≤ 60)

/-- Head of the stable descending sort by `tiktokScore`: the leftmost
element of maximal score (JavaScript's stable `sort(...)[0]`). -/
def pickTopScored (s : MediaItem) (ss : List MediaItem) : MediaItem :=
  ss.foldl (fun best v => if tiktokScore best < tiktokScore v then v else best) s

/-- `MediaService.getBestVideoForTikTok`: filter the returned videos to those
with a reported duration in `[15, 60]`; if none qualify return
`videos[0] || null`; otherwise return the head of the suitable videos sorted
descending by `tiktokScore`. -/
def getBestVideoForTikTok (mr : MediaSearchResult) : Option MediaItem :=
  match mr.videos.filter suitableDuration with
  | [] => mr.videos.head?
  | s :: ss => some (pickTopScored s ss)

/-! ## VideoService: subtitle generation -/

/-- The character class kept by `script.replace(/[^\w\sА-Яа-яё.,!?-]/g, '')`. -/
def subtitleCharKept (c : Char) : Bool :=
  ('A' ≤ c && c ≤ 'Z') || ('a' ≤ c && c ≤ 'z') || ('0' ≤ c && c ≤ '9') || c == '_' ||
  jsIsSpace c ||
  ('А' ≤ c && c ≤ 'Я') || ('а' ≤ c && c ≤ 'я') || c == 'ё' ||
  c == '.' || c == ',' || c == '!' || c == '?' || c == '-'

/-- `script.replace(/[^\w\sА-Яа-яё.,!?-]/g, '').trim()`, shared by
`generateSubtitles` and `createContentSegments`. -/
def cleanScriptOf (script : List Char) : List Char :=
  jsTrim (script.filter subtitleCharKept)

/-- The word list of `generateSubtitles`: `cleanScript.split(' ')`. -/
def subtitleWords (script : List Char) : List (List Char) :=
  jsSplitChar ' ' (cleanScriptOf script)

/-- Grouping of the word list in steps of three, as the loop
`for (let i = 0; i < words.length; i += 3)` with `words.slice(i, i + 3)`. -/
def chunk3 {α : Type} : List α → List (List α)
  | [] => []
  | [a] => [[a]]
  | [a, b] => [[a, b]]
  | a :: b :: c :: rest => [a, b, c] :: chunk3 rest

/-- One timed subtitle entry of the produced SRT file. -/
structure Cue where
  startTime : ℕ
  endTime : ℕ
  text : List Char
deriving DecidableEq, Repr

/-- `chunks.forEach((chunk, index) => ...)`: the two-second cue for each chunk,
`index * 2 → (index + 1) * 2`. -/
def cuesOf : ℕ → List (List Char) → List Cue
  | _, [] => []
  | i, c :: rest => ⟨2 * i, 2 * (i + 1), c⟩ :: cuesOf (i + 1) rest

/-- `VideoService.generateSubtitles`: clean the script, split on single
spaces, group words three at a time into two-second cues, and append one
trailing empty cue from `chunks.length * 2` to
`max(chunks.length * 2 + 5, 30)` whenever `chunks.length * 2 < 60`. -/
def generateSubtitles (script : List Char) : List Cue :=
  let words := subtitleWords script
  let chunks := (chunk3 words).map (List.intercalate [' '])
  let base := cuesOf 0 chunks
  let totalDuration := chunks.length * 2
  if totalDuration < 60 then
    base ++ [⟨totalDuration, max (totalDuration + 5) 30, []⟩]
  else
    base

/-! ## VideoService: segment planning -/

/-- The sentence-terminator class of `split(/[.!?]+/)`. -/
def isSentenceEnd (c : Char) : Bool :=
  c == '.' || c == '!' || c == '?'

/-- The separator class of `split(/[\s.,!?]+/)` in `extractSearchQuery`. -/
def isQueryWordSep (c : Char) : Bool :=
  jsIsSpace c || c == '.' || c == ',' || c == '!' || c == '?'

/-- The keyword→topic dictionary of `VideoService.extractSearchQuery`. -/
def segmentTranslations : List (String × String) :=
  [("здоровье", "health medical"),
   ("спорт", "sport fitness"),
   ("бег", "running jogging"),
   ("жара", "summer heat weather"),
   ("сердце", "heart cardio medical"),
   ("тренировка", "workout training gym"),
   ("питание", "nutrition food healthy"),
   ("болезнь", "illness disease medical"),
   ("врач", "doctor medical hospital"),
   ("лекарство", "medicine pharmacy medical"),
   ("исследование", "research science laboratory"),
   ("ученые", "scientists research laboratory"),
   ("наука", "science research technology"),
   ("эксперимент", "experiment laboratory science"),
   ("данные", "data analysis research"),
   ("алматы", "almaty kazakhstan city urban"),
   ("казахстан", "kazakhstan central asia"),
   ("астана", "astana nur-sultan kazakhstan"),
   ("город", "city urban buildings"),
   ("улица", "street road urban"),
   ("парк", "park nature green"),
   ("горы", "mountains landscape nature"),
   ("загрязнение", "pollution environment ecology"),
   ("воздух", "air pollution environment"),
   ("экология", "ecology environment nature"),
   ("природа", "nature landscape environment"),
   ("климат", "climate weather environment"),
   ("мусор", "waste garbage pollution"),
   ("образование", "education school university"),
   ("школа", "school education children"),
   ("университет", "university college education"),
   ("студенты", "students university education"),
   ("учеба", "study education learning"),
   ("экзамен", "exam test education"),
   ("технологии", "technology innovation digital"),
   ("ИИ", "artificial intelligence AI technology"),
   ("компьютер", "computer technology digital"),
   ("интернет", "internet technology digital"),
   ("смартфон", "smartphone mobile technology"),
   ("приложение", "app mobile technology"),
   ("дебаты", "debate discussion politics"),
   ("политика", "politics government society"),
   ("выборы", "elections voting politics"),
   ("правительство", "government politics official"),
   ("закон", "law legal government"),
   ("молодежь", "youth young people"),
   ("дети", "children kids family"),
   ("семья", "family people home"),
   ("работа", "work office business"),
   ("бизнес", "business office corporate"),
   ("деньги", "money finance business"),
   ("культура", "culture art tradition"),
   ("искусство", "art culture creative"),
   ("музыка", "music concert performance"),
   ("театр", "theater performance culture"),
   ("кино", "cinema movie entertainment"),
   ("фестиваль", "festival celebration culture"),
   ("транспорт", "transport traffic urban"),
   ("автомобиль", "car vehicle traffic"),
   ("автобус", "bus public transport"),
   ("метро", "subway metro transport"),
   ("дорога", "road traffic transport"),
   ("еда", "food restaurant cooking"),
   ("ресторан", "restaurant food dining"),
   ("кафе", "cafe coffee restaurant"),
   ("готовка", "cooking food kitchen"),
   ("зима", "winter snow cold"),
   ("лето", "summer sun hot"),
   ("весна", "spring flowers nature"),
   ("осень", "autumn fall leaves"),
   ("дождь", "rain weather storm"),
   ("снег", "snow winter cold")]

/-- `translations[word]` object lookup. -/
def translationOf (w : String) : Option String :=
  (segmentTranslations.find? (fun p => p.1 = w)).map (·.2)

/-- `VideoService.extractSearchQuery text keyPoints`: direct dictionary hits on
the words of the lowered text, context terms from substring probes, key-point
hits, a context-sensitive fallback when nothing matched, first four terms
joined by spaces. -/
def extractSearchQuery (text : List Char) (keyPoints : List String) : String :=
  let textLower := text.map jsToLower
  let words := (jsSplitRuns isQueryWordSep textLower).filter (fun w => w.length > 2)
  let wordTerms := words.filterMap (fun w => translationOf (String.mk w))
  let contextTerms :=
    (if hasSubList "загрязн".data textLower || hasSubList "эколог".data textLower then
      ["pollution environment"] else []) ++
    (if hasSubList "здоров".data textLower || hasSubList "медицин".data textLower then
      ["health medical"] else []) ++
    (if hasSubList "образован".data textLower || hasSubList "школ".data textLower ||
        hasSubList "студент".data textLower then
      ["education school"] else []) ++
    (if hasSubList "технолог".data textLower || hasSubList "цифров".data textLower ||
        hasSubList "ИИ".data textLower then
      ["technology digital"] else []) ++
    (if hasSubList "политик".data textLower || hasSubList "правительств".data textLower ||
        hasSubList "выбор".data textLower then
      ["politics government"] else [])
  let keyPointTerms := keyPoints.filterMap (fun point =>
    let pointLower := point.data.map jsToLower
    if hasSubList pointLower textLower then
      match translationOf (String.mk pointLower) with
      | some t => some t
      | none => if pointLower.length > 2 then some point else none
    else none)
  let allTerms := (wordTerms ++ keyPointTerms) ++ contextTerms
  let allTerms :=
    if allTerms = [] then
      if hasSubList "казахстан".data textLower || hasSubList "алматы".data textLower then
        ["kazakhstan city urban"]
      else if hasSubList "люди".data textLower || hasSubList "человек".data textLower then
        ["people society"]
      else
        ["modern life urban"]
    else allTerms
  String.intercalate " " (allTerms.take 4)

/-- A planned content segment (`createContentSegments` element). -/
structure Segment where
  text : List Char
  searchQuery : String
  startTime : ℚ
  duration : ℚ
deriving DecidableEq, Repr

/-- The planning loop
`for (let i = 0; i < sentences.length && i * segmentDuration < totalDuration; i++)`,
with the slot length `L` (the code's `segmentDuration`) and total duration `D`
explicit. -/
def segLoop (sentences : List (List Char)) (keyPoints : List String)
    (L D : ℚ) (i : ℕ) : List Segment :=
  if h : i < sentences.length ∧ (i : ℚ) * L < D then
    { text := jsTrim (sentences.getD i []),
      searchQuery := extractSearchQuery (jsTrim (sentences.getD i [])) keyPoints,
      startTime := (i : ℚ) * L,
      duration := min L (D - (i : ℚ) * L) } :: segLoop sentences keyPoints L D (i + 1)
  else []
termination_by sentences.length - i
decreasing_by omega

/-- The sentence list of `createContentSegments`:
`cleanScript.split(/[.!?]+/).filter(s => s.trim().length > 0)`. -/
def sentencesOf (script : List Char) : List (List Char) :=
  (jsSplitRuns isSentenceEnd (cleanScriptOf script)).filter
    (fun s => (jsTrim s).length > 0)

/-- `VideoService.createContentSegments` with the code's slot length of 4 s. -/
def createContentSegments (script : List Char) (keyPoints : List String)
    (totalDuration : ℚ) : List Segment :=
  segLoop (sentencesOf script) keyPoints 4 totalDuration 0

/-! ## VoiceService: long-text synthesis -/

/-- The cut position computed by one iteration of `VoiceService.splitText`:
take `min(text.length, start + maxLength)`; if that is not the end of the
text, prefer the last sentence terminator (`.`, `!`, `?`) found at or before
it (cutting just after it), falling back to the last space strictly after
`start`. -/
def splitTextEnd (text : List Char) (maxLength start : ℕ) : ℕ :=
  let e0 := min text.length (start + maxLength)
  if e0 < text.length then
    let lastPeriod := jsLastIndexOfFrom text '.' e0
    let lastExclamation := jsLastIndexOfFrom text '!' e0
    let lastQuestion := jsLastIndexOfFrom text '?' e0
    let sentenceEnd := max (max lastPeriod lastExclamation) lastQuestion
    if (start : ℤ) < sentenceEnd then sentenceEnd.toNat + 1
    else
      let lastSpace := jsLastIndexOfFrom text ' ' e0
      if (start : ℤ) < lastSpace then lastSpace.toNat else e0
  else e0

/-- The `while (start < text.length)` loop of `VoiceService.splitText`, made
total by explicit fuel: `none` means the fuel ran out before the loop
finished (the loop would still be running). -/
def splitTextLoop (text : List Char) (maxLength : ℕ) :
    ℕ → ℕ → Option (List (List Char))
  | 0, start => if start < text.length then none else some []
  | fuel + 1, start =>
    if start < text.length then
      let e := splitTextEnd text maxLength start
      (splitTextLoop text maxLength fuel e).map
        (fun rest => jsTrim (jsSubstring text start e) :: rest)
    else some []

/-- `VoiceService.splitText text maxLength`: run the loop (with fuel
`text.length`, enough for any terminating run) and drop empty parts
(`parts.filter(part => part.length > 0)`). -/
def splitText (text : List Char) (maxLength : ℕ) : Option (List (List Char)) :=
  (splitTextLoop text maxLength text.length 0).map
    (fun parts => parts.filter (fun p => p.length > 0))

/-- The result of a synthesis call: the produced audio data (standing for the
contents of the written file) and the reported duration.
`VoiceService.getAudioDuration` always returns `undefined` in the source, so a
successful `synthesizeSpeech` reports no duration. -/
structure AudioResult where
  audio : List ℕ
  duration : Option ℚ := none
deriving DecidableEq, Repr

/-- `VoiceService.mergeAudioFiles`: despite its name it copies the first
file only (`fs.copyFileSync(audioFiles[0], finalPath)`). -/
def mergeAudioFiles (audioFiles : List (List ℕ)) : List ℕ :=
  match audioFiles with
  | [] => []
  | f :: _ => f

/-- `VoiceService.synthesizeLongText`, with the provider call abstracted as
`audioOf : List Char → Option (List ℕ)` (`none` = the request failed): texts
up to 2500 characters go through one `synthesizeSpeech` call; longer texts
are split with `splitText text 2500`, each part synthesized in order (a part
failure throws, caught as overall `null`), and the files passed to
`mergeAudioFiles`; the returned result carries no duration. -/
def synthesizeLongText (audioOf : List Char → Option (List ℕ))
    (text : List Char) : Option AudioResult :=
  if text.length ≤ 2500 then
    (audioOf text).map (fun a => { audio := a, duration := none })
  else
    match splitText text 2500 with
    | none => none
    | some parts =>
      match parts.mapM audioOf with
      | none => none
      | some audioFiles => some { audio := mergeAudioFiles audioFiles, duration := none }

/-! ## ArticleController: submission and the pipeline state machine -/

/-- The substring required of every submitted URL. -/
def steppeDomain : String := "the-steppe.com"

/-- `Job.findOne({url})` over the store (first match in store order). -/
def findJobByUrl (store : List Job) (url : String) : Option Job :=
  store.find? (fun j => j.url = url)

/-- The controller's reply to `POST /generate`. -/
inductive GenResponse where
  | missingUrl
  | invalidUrl
  | existing (jobId : ℕ) (status : Status) (videoUrl : Option String)
  | created (jobId : ℕ)
deriving DecidableEq, Repr

/-- `ArticleController.generateVideo`: reject a missing/empty URL, reject a
URL not containing `the-steppe.com`, answer with the existing job when one
is found for the URL, otherwise persist a fresh `pending` job (background
processing is then scheduled for it). -/
def generateVideo (store : List Job) (url : String) (newId : ℕ) :
    List Job × GenResponse :=
  if url = "" then (store, .missingUrl)
  else if !(jsIncludes url steppeDomain) then (store, .invalidUrl)
  else
    match findJobByUrl store url with
    | some j => (store, .existing j.id j.status j.videoUrl)
    | none => (store ++ [freshJob newId url], .created newId)

/-- Outcomes of the external stage calls made by one run of
`processVideoGeneration`: the scraper result (`null` on failure), the two AI
calls (`Except` carries the thrown message; the metadata payload itself is
never used afterwards), the synthesizer result (`null` on failure), the media
search (throws on failure) and the assembly call (throws on failure). -/
structure PipelineEnv where
  scrape : Option Article
  aiResult : Except String ProcessedContent
  metadata : Except String Unit
  voiceResult : Option VoiceResult
  mediaResult : Except String MediaSearchResult
  videoResult : Except String VideoResult

/-- The `catch` block of `processVideoGeneration`: status `error` with the
failure's message. -/
def failJob (j : Job) (msg : String) : Job :=
  { j with status := .error, error := some msg }

/-- The error message thrown when the scraper returns no content. -/
def scrapeFailMsg : String := "Failed to scrape article content"

/-- The error message thrown when the synthesizer returns no result. -/
def synthFailMsg : String := "Failed to synthesize speech"

/-- The error message thrown when no background video is selected. -/
def noMediaMsg : String := "No suitable background video found"

/-- `ArticleController.processVideoGeneration` as the sequence of persisted
job snapshots (one entry per `findByIdAndUpdate`): mark `processing`; scrape
(throw on `null`); persist title/content; AI processing (throws); metadata
(throws); synthesis (throw on `null`); persist audio path/duration; media
search (throws); select via `getBestVideoForTikTok` (throw on `null`);
assembly (throws); persist the video fields; mark `done` with the video URL.
A thrown failure is caught once, appending the `error` snapshot. -/
def runPipeline (env : PipelineEnv) (j0 : Job) : List Job :=
  let j1 := { j0 with status := Status.processing }
  match env.scrape with
  | none => [j1, failJob j1 scrapeFailMsg]
  | some article =>
    let j2 := { j1 with title := some article.title, content := some article.text }
    match env.aiResult with
    | .error e => [j1, j2, failJob j2 e]
    | .ok _pc =>
      match env.metadata with
      | .error e => [j1, j2, failJob j2 e]
      | .ok _ =>
        match env.voiceResult with
        | none => [j1, j2, failJob j2 synthFailMsg]
        | some vr =>
          let j3 := { j2 with audioPath := some vr.audioPath,
                              audioDuration := vr.duration }
          match env.mediaResult with
          | .error e => [j1, j2, j3, failJob j3 e]
          | .ok mr =>
            match getBestVideoForTikTok mr with
            | none => [j1, j2, j3, failJob j3 noMediaMsg]
            | some _bv =>
              match env.videoResult with
              | .error e => [j1, j2, j3, failJob j3 e]
              | .ok v =>
                let j4 := { j3 with videoPath := some v.videoPath,
                                    videoDuration := some v.duration,
                                    videoSize := some v.size,
                                    videoResolution := some v.resolution,
                                    hasSubtitles := some v.hasSubtitles }
                let j5 := { j4 with status := Status.done,
                                    videoUrl := some ("file://" ++ v.videoPath) }
                [j1, j2, j3, j4, j5]

/-- The job state persisted when the run has finished. -/
def pipelineFinal (env : PipelineEnv) (j0 : Job) : Job :=
  (runPipeline env j0).getLastD j0

/-- Modelled from the spec: clearing "the existing job's transient fields"
on forced regeneration — the error and video fields are reset and the job
returns to `pending` (§4.1, §8 "clears its error/video fields and restarts
from `pending`"). -/
def clearTransient (j : Job) : Job :=
  { j with
    status := Status.pending
    error := none
    videoPath := none
    videoDuration := none
    videoSize := none
    videoResolution := none
    hasSubtitles := none
    videoUrl := none }

/-- Modelled from the spec: the extended submission variant accepting
`{url, force}` (§4.1, §6). The provided sources contain only its callers —
the router registers `articleController.regenerateVideo` and its
test-regeneration endpoint documents `{url, force: true}` — while the
controller file present (`ArticleController.generateVideo`) implements only
the plain variant. With `force` set and an existing job for the URL, the
job's transient fields are cleared, it is reset to `pending`, and background
execution is re-scheduled for it (the third component is the job the
re-scheduled run starts from). -/
def generateVideoForce (store : List Job) (url : String) (force : Bool)
    (newId : ℕ) : List Job × GenResponse × Option Job :=
  if url = "" then (store, .missingUrl, none)
  else if !(jsIncludes url steppeDomain) then (store, .invalidUrl, none)
  else
    match findJobByUrl store url with
    | some j =>
      if force then
        let j' := clearTransient j
        (store.map (fun k => if k.id = j.id then j' else k),
         .existing j'.id j'.status j'.videoUrl, some j')
      else (store, .existing j.id j.status j.videoUrl, none)
    | none => (store ++ [freshJob newId url], .created newId,
               some (freshJob newId url))

/-! ## Claim theorems -/

/-- C9: submission's URL validation accepts a URL exactly when it contains
the substring `the-steppe.com` anywhere in the string; in particular a URL
whose host is a different domain but whose path contains that substring is
accepted and a new job is persisted. -/
theorem c9_url_validation_is_substring_check :
    (∀ (store : List Job) (url : String) (newId : ℕ),
      ((generateVideo store url newId).2 = GenResponse.missingUrl ∨
        (generateVideo store url newId).2 = GenResponse.invalidUrl) ↔
        jsIncludes url steppeDomain = false) ∧
    generateVideo [] "https://evil.example/the-steppe.com/article" 7 =
      ([freshJob 7 "https://evil.example/the-steppe.com/article"],
        GenResponse.created 7) := by
  constructor
  · intro store url newId
    by_cases h0 : url = ""
    · subst h0
      simp only [generateVideo, if_pos rfl]
      constructor
      · intro _
        decide
      · intro _
        left
        rfl
    · by_cases h1 : jsIncludes url steppeDomain
      · rcases hf : findJobByUrl store url with _ | j <;>
          simp [generateVideo, h0, h1, hf]
      · have h1' : jsIncludes url steppeDomain = false := by
          revert h1
          cases jsIncludes url steppeDomain <;> simp
        simp [generateVideo, h0, h1']
  · decide

/-- C2: submitting a URL that already has a job, without force, answers with
the existing job's identity and status, leaves the store unchanged and so
creates no new job (total count unchanged). The validity hypothesis holds
for every URL the controller ever stores, since validation precedes
creation. -/
theorem c2_resubmission_returns_existing_job (store : List Job) (url : String)
    (newId : ℕ) (j : Job)
    (hvalid : jsIncludes url steppeDomain = true)
    (hfind : findJobByUrl store url = some j) :
    generateVideo store url newId =
      (store, GenResponse.existing j.id j.status j.videoUrl) ∧
    (generateVideo store url newId).1.length = store.length := by
  have hne : url ≠ "" := by
    intro h
    rw [h] at hvalid
    exact absurd hvalid (by decide)
  constructor <;> simp [generateVideo, hne, hvalid, hfind]

/-- A valid article URL used by concrete instances. -/
def steppeUrlEx : String := "https://the-steppe.com/gorod/a"

/-- A one-job store for the concrete instances. -/
def storeEx : List Job := [freshJob 5 steppeUrlEx]

/-- Witness for C2 at a concrete store: the resubmission is a no-op. -/
theorem c2_resubmission_witness :
    jsIncludes steppeUrlEx steppeDomain = true ∧
    findJobByUrl storeEx steppeUrlEx = some (freshJob 5 steppeUrlEx) ∧
    (generateVideo storeEx steppeUrlEx 9 =
        (storeEx, GenResponse.existing 5 Status.pending none) ∧
      (generateVideo storeEx steppeUrlEx 9).1.length = storeEx.length) :=
  ⟨by decide, by decide,
    c2_resubmission_returns_existing_job storeEx steppeUrlEx 9
      (freshJob 5 steppeUrlEx) (by decide) (by decide)⟩

/-- C3 (spec-modelled): submitting with `force = true` against an existing
job clears its error and video fields, resets it to `pending` in the store,
and re-schedules the pipeline starting from that cleared pending job. -/
theorem c3_force_resets_job (store : List Job) (url : String) (newId : ℕ)
    (j : Job)
    (hvalid : jsIncludes url steppeDomain = true)
    (hfind : findJobByUrl store url = some j) :
    (generateVideoForce store url true newId).2.2 = some (clearTransient j) ∧
    (generateVideoForce store url true newId).1 =
      store.map (fun k => if k.id = j.id then clearTransient j else k) ∧
    (clearTransient j).status = Status.pending ∧
    (clearTransient j).error = none ∧
    (clearTransient j).videoPath = none ∧
    (clearTransient j).videoDuration = none ∧
    (clearTransient j).videoSize = none ∧
    (clearTransient j).videoResolution = none ∧
    (clearTransient j).videoUrl = none ∧
    (clearTransient j).url = j.url := by
  have hne : url ≠ "" := by
    intro h
    rw [h] at hvalid
    exact absurd hvalid (by decide)
  refine ⟨?_, ?_, ?_, ?_, ?_, ?_, ?_, ?_, ?_, ?_⟩ <;>
    simp [generateVideoForce, clearTransient, hne, hvalid, hfind]

/-- A failed job with stale video fields, for the C3 instance. -/
def erroredJobEx : Job :=
  { freshJob 3 steppeUrlEx with
    status := Status.error
    error := some "boom"
    videoPath := some "old.mp4"
    videoDuration := some 31
    videoSize := some 1000
    videoResolution := some "1080x1920"
    videoUrl := some "file://old.mp4" }

/-- Witness for C3 at a concrete errored job. -/
theorem c3_force_witness :
    jsIncludes steppeUrlEx steppeDomain = true ∧
    findJobByUrl [erroredJobEx] steppeUrlEx = some erroredJobEx ∧
    ((generateVideoForce [erroredJobEx] steppeUrlEx true 9).2.2 =
        some (clearTransient erroredJobEx) ∧
      (generateVideoForce [erroredJobEx] steppeUrlEx true 9).1 =
        [erroredJobEx].map
          (fun k => if k.id = erroredJobEx.id then clearTransient erroredJobEx else k) ∧
      (clearTransient erroredJobEx).status = Status.pending ∧
      (clearTransient erroredJobEx).error = none ∧
      (clearTransient erroredJobEx).videoPath = none ∧
      (clearTransient erroredJobEx).videoDuration = none ∧
      (clearTransient erroredJobEx).videoSize = none ∧
      (clearTransient erroredJobEx).videoResolution = none ∧
      (clearTransient erroredJobEx).videoUrl = none ∧
      (clearTransient erroredJobEx).url = erroredJobEx.url) :=
  ⟨by decide, by decide,
    c3_force_resets_job [erroredJobEx] steppeUrlEx 9 erroredJobEx
      (by decide) (by decide)⟩

/-- The narration fields of a job are unset. -/
def audioFieldsUnset (j : Job) : Prop :=
  j.audioPath = none ∧ j.audioDuration = none

/-- The video fields of a job are unset. -/
def videoFieldsUnset (j : Job) : Prop :=
  j.videoPath = none ∧ j.videoDuration = none ∧ j.videoSize = none ∧
  j.videoResolution = none ∧ j.hasSubtitles = none ∧ j.videoUrl = none

/-- The job is persisted as failed with this exact message. -/
def faultedWith (j : Job) (msg : String) : Prop :=
  j.status = Status.error ∧ j.error = some msg

/-- C1: whichever stage throws or returns no usable result, the final
persisted job state is `error` carrying that failure's message, and every
field a later stage would have written is still unset; in particular a
scrape returning no content leaves title, content and all audio/video
fields unpopulated. (Stages are consulted once each along the single pass
of `runPipeline`, so no stage is retried.) -/
theorem c1_stage_failure_faults_job (env : PipelineEnv) (n : ℕ) (url : String) :
    (env.scrape = none →
      faultedWith (pipelineFinal env (freshJob n url)) scrapeFailMsg ∧
      (pipelineFinal env (freshJob n url)).title = none ∧
      (pipelineFinal env (freshJob n url)).content = none ∧
      audioFieldsUnset (pipelineFinal env (freshJob n url)) ∧
      videoFieldsUnset (pipelineFinal env (freshJob n url))) ∧
    (∀ a e, env.scrape = some a → env.aiResult = .error e →
      faultedWith (pipelineFinal env (freshJob n url)) e ∧
      audioFieldsUnset (pipelineFinal env (freshJob n url)) ∧
      videoFieldsUnset (pipelineFinal env (freshJob n url))) ∧
    (∀ a pc e, env.scrape = some a → env.aiResult = .ok pc →
      env.metadata = .error e →
      faultedWith (pipelineFinal env (freshJob n url)) e ∧
      audioFieldsUnset (pipelineFinal env (freshJob n url)) ∧
      videoFieldsUnset (pipelineFinal env (freshJob n url))) ∧
    (∀ a pc, env.scrape = some a → env.aiResult = .ok pc →
      env.metadata = .ok () → env.voiceResult = none →
      faultedWith (pipelineFinal env (freshJob n url)) synthFailMsg ∧
      audioFieldsUnset (pipelineFinal env (freshJob n url)) ∧
      videoFieldsUnset (pipelineFinal env (freshJob n url))) ∧
    (∀ a pc vr e, env.scrape = some a → env.aiResult = .ok pc →
      env.metadata = .ok () → env.voiceResult = some vr →
      env.mediaResult = .error e →
      faultedWith (pipelineFinal env (freshJob n url)) e ∧
      videoFieldsUnset (pipelineFinal env (freshJob n url))) ∧
    (∀ a pc vr mr, env.scrape = some a → env.aiResult = .ok pc →
      env.metadata = .ok () → env.voiceResult = some vr →
      env.mediaResult = .ok mr → getBestVideoForTikTok mr = none →
      faultedWith (pipelineFinal env (freshJob n url)) noMediaMsg ∧
      videoFieldsUnset (pipelineFinal env (freshJob n url))) ∧
    (∀ a pc vr mr bv e, env.scrape = some a → env.aiResult = .ok pc →
      env.metadata = .ok () → env.voiceResult = some vr →
      env.mediaResult = .ok mr → getBestVideoForTikTok mr = some bv →
      env.videoResult = .error e →
      faultedWith (pipelineFinal env (freshJob n url)) e ∧
      videoFieldsUnset (pipelineFinal env (freshJob n url))) := by
  refine ⟨?_, ?_, ?_, ?_, ?_, ?_, ?_⟩
  · intro h
    simp [pipelineFinal, runPipeline, h, failJob, freshJob, faultedWith,
      audioFieldsUnset, videoFieldsUnset]
  · intro a e h1 h2
    simp [pipelineFinal, runPipeline, h1, h2, failJob, freshJob, faultedWith,
      audioFieldsUnset, videoFieldsUnset]
  · intro a pc e h1 h2 h3
    simp [pipelineFinal, runPipeline, h1, h2, h3, failJob, freshJob,
      faultedWith, audioFieldsUnset, videoFieldsUnset]
  · intro a pc h1 h2 h3 h4
    simp [pipelineFinal, runPipeline, h1, h2, h3, h4, failJob, freshJob,
      faultedWith, audioFieldsUnset, videoFieldsUnset]
  · intro a pc vr e h1 h2 h3 h4 h5
    simp [pipelineFinal, runPipeline, h1, h2, h3, h4, h5, failJob, freshJob,
      faultedWith, videoFieldsUnset]
  · intro a pc vr mr h1 h2 h3 h4 h5 h6
    simp [pipelineFinal, runPipeline, h1, h2, h3, h4, h5, h6, failJob,
      freshJob, faultedWith, videoFieldsUnset]
  · intro a pc vr mr bv e h1 h2 h3 h4 h5 h6 h7
    simp [pipelineFinal, runPipeline, h1, h2, h3, h4, h5, h6, h7, failJob,
      freshJob, faultedWith, videoFieldsUnset]

/-- An environment whose scraper returns no content. -/
def envScrapeFail : PipelineEnv :=
  { scrape := none
    aiResult := .error "AI processing failed: x"
    metadata := .error "Metadata generation failed: x"
    voiceResult := none
    mediaResult := .error "Media collection failed: x"
    videoResult := .error "Video assembly failed: x" }

/-- Witness for C1: on a concrete scrape failure the job faults with the
scrape message and nothing downstream is populated. -/
theorem c1_stage_failure_witness :
    envScrapeFail.scrape = none ∧
    (faultedWith (pipelineFinal envScrapeFail (freshJob 1 steppeUrlEx))
        scrapeFailMsg ∧
      (pipelineFinal envScrapeFail (freshJob 1 steppeUrlEx)).title = none ∧
      (pipelineFinal envScrapeFail (freshJob 1 steppeUrlEx)).content = none ∧
      audioFieldsUnset (pipelineFinal envScrapeFail (freshJob 1 steppeUrlEx)) ∧
      videoFieldsUnset (pipelineFinal envScrapeFail (freshJob 1 steppeUrlEx))) :=
  ⟨rfl, (c1_stage_failure_faults_job envScrapeFail 1 steppeUrlEx).1 rfl⟩

/-- Some video field of the job is populated. -/
def videoAnySet (j : Job) : Prop :=
  j.videoPath.isSome ∨ j.videoDuration.isSome ∨ j.videoSize.isSome ∨
  j.videoResolution.isSome

/-- C8 (amended): every persisted snapshot of a run started from a fresh job
satisfies the stage-order prefix invariant that holds of this code: if any
video field is set then `audioPath` was already set — and `audioDuration`
equals whatever duration the synthesizer reported, which may be absent — and
if `audioPath` is set then title and content were already set. -/
theorem c8_amended_prefix_invariant (env : PipelineEnv) (n : ℕ) (url : String) :
    ∀ s ∈ runPipeline env (freshJob n url),
      (videoAnySet s → s.audioPath.isSome ∧
        ∀ vr, env.voiceResult = some vr → s.audioDuration = vr.duration) ∧
      (s.audioPath.isSome → s.title.isSome ∧ s.content.isSome) := by
  intro s hs
  obtain ⟨scr, ai, md, vo, me, vi⟩ := env
  rcases scr with _ | a
  · simp only [runPipeline, List.mem_cons, List.not_mem_nil, or_false] at hs
    rcases hs with rfl | rfl <;>
      simp [freshJob, failJob, videoAnySet]
  · rcases ai with e | pc
    · simp only [runPipeline, List.mem_cons, List.not_mem_nil, or_false] at hs
      rcases hs with rfl | rfl | rfl <;>
        simp [freshJob, failJob, videoAnySet]
    · rcases md with e2 | u
      · simp only [runPipeline, List.mem_cons, List.not_mem_nil, or_false] at hs
        rcases hs with rfl | rfl | rfl <;>
          simp [freshJob, failJob, videoAnySet]
      · rcases vo with _ | vr
        · simp only [runPipeline, List.mem_cons, List.not_mem_nil,
            or_false] at hs
          rcases hs with rfl | rfl | rfl <;>
            simp [freshJob, failJob, videoAnySet]
        · rcases me with e3 | mr
          · simp only [runPipeline, List.mem_cons, List.not_mem_nil,
              or_false] at hs
            rcases hs with rfl | rfl | rfl | rfl <;>
              simp [freshJob, failJob, videoAnySet]
          · rcases hbv : getBestVideoForTikTok mr with _ | bv
            · simp only [runPipeline, hbv, List.mem_cons, List.not_mem_nil,
                or_false] at hs
              rcases hs with rfl | rfl | rfl | rfl <;>
                simp [freshJob, failJob, videoAnySet]
            · rcases vi with e4 | v
              · simp only [runPipeline, hbv, List.mem_cons, List.not_mem_nil,
                  or_false] at hs
                rcases hs with rfl | rfl | rfl | rfl <;>
                  simp [freshJob, failJob, videoAnySet]
              · simp only [runPipeline, hbv, List.mem_cons, List.not_mem_nil,
                  or_false] at hs
                rcases hs with rfl | rfl | rfl | rfl | rfl <;>
                  simp [freshJob, failJob, videoAnySet]

/-- A suitable background video for concrete pipeline runs. -/
def mediaOkVideo : MediaItem :=
  { id := 10, url := "bg", previewUrl := "bgp", type := .video,
    duration := some 30, relevanceScore := some 1, quality := .hd }

/-- A media search result with one suitable video. -/
def mediaOkResult : MediaSearchResult :=
  { videos := [mediaOkVideo], images := [], searchQuery := "q",
    totalFound := 1 }

/-- A fully succeeding environment in which the synthesizer — like the
shipped `VoiceService`, whose `getAudioDuration` always returns
`undefined` — reports no duration. -/
def envNoDuration : PipelineEnv :=
  { scrape := some ⟨"Title", "Body"⟩
    aiResult := .ok ⟨"sum", ["k"], "script", ["t"]⟩
    metadata := .ok ()
    voiceResult := some { audioPath := "audio.mp3", duration := none }
    mediaResult := .ok mediaOkResult
    videoResult := .ok ⟨"out.mp4", 30, 12345, "1080x1920", true⟩ }

/-- Counterexample to C8 as stated: a persisted snapshot reachable by the
pipeline (the final one of a successful run with no reported narration
duration) has its video fields set while `audioDuration` is unset, so a
`getStatus` reader can observe video fields without both narration fields. -/
theorem c8_counterexample_duration_unset :
    pipelineFinal envNoDuration (freshJob 1 steppeUrlEx) ∈
      runPipeline envNoDuration (freshJob 1 steppeUrlEx) ∧
    (pipelineFinal envNoDuration (freshJob 1 steppeUrlEx)).videoPath =
      some "out.mp4" ∧
    (pipelineFinal envNoDuration (freshJob 1 steppeUrlEx)).audioPath =
      some "audio.mp3" ∧
    (pipelineFinal envNoDuration (freshJob 1 steppeUrlEx)).audioDuration =
      none := by decide

/-- Witness for the amended C8 at a concrete snapshot of a concrete run. -/
theorem c8_amended_witness :
    pipelineFinal envNoDuration (freshJob 1 steppeUrlEx) ∈
      runPipeline envNoDuration (freshJob 1 steppeUrlEx) ∧
    ((videoAnySet (pipelineFinal envNoDuration (freshJob 1 steppeUrlEx)) →
        (pipelineFinal envNoDuration (freshJob 1 steppeUrlEx)).audioPath.isSome ∧
        ∀ vr, envNoDuration.voiceResult = some vr →
          (pipelineFinal envNoDuration (freshJob 1 steppeUrlEx)).audioDuration =
            vr.duration) ∧
      ((pipelineFinal envNoDuration (freshJob 1 steppeUrlEx)).audioPath.isSome →
        (pipelineFinal envNoDuration (freshJob 1 steppeUrlEx)).title.isSome ∧
        (pipelineFinal envNoDuration (freshJob 1 steppeUrlEx)).content.isSome)) :=
  ⟨by decide,
    c8_amended_prefix_invariant envNoDuration 1 steppeUrlEx
      (pipelineFinal envNoDuration (freshJob 1 steppeUrlEx)) (by decide)⟩

/-- `pickTopScored` returns a member of the candidate list. -/
theorem pickTopScored_mem (ss : List MediaItem) :
    ∀ s, pickTopScored s ss ∈ s :: ss := by
  induction ss with
  | nil =>
    intro s
    exact List.mem_cons_self _ _
  | cons v tl ih =>
    intro s
    show pickTopScored (if tiktokScore s < tiktokScore v then v else s) tl ∈
      s :: v :: tl
    have h := ih (if tiktokScore s < tiktokScore v then v else s)
    rcases List.mem_cons.mp h with h1 | h1
    · rw [h1]
      by_cases hc : tiktokScore s < tiktokScore v
      · rw [if_pos hc]
        exact List.mem_cons_of_mem _ (List.mem_cons_self _ _)
      · rw [if_neg hc]
        exact List.mem_cons_self _ _
    · exact List.mem_cons_of_mem _ (List.mem_cons_of_mem _ h1)

/-- `pickTopScored` achieves the maximal `tiktokScore` of the candidates. -/
theorem pickTopScored_le (ss : List MediaItem) :
    ∀ s, ∀ w ∈ s :: ss, tiktokScore w ≤ tiktokScore (pickTopScored s ss) := by
  induction ss with
  | nil =>
    intro s w hw
    rw [List.mem_singleton.mp hw]
    exact le_refl _
  | cons v tl ih =>
    intro s w hw
    show tiktokScore w ≤
      tiktokScore (pickTopScored (if tiktokScore s < tiktokScore v then v else s) tl)
    have hhead := ih (if tiktokScore s < tiktokScore v then v else s) _
      (List.mem_cons_self _ _)
    rcases List.mem_cons.mp hw with h1 | h1
    · refine le_trans ?_ hhead
      rw [h1]
      by_cases hc : tiktokScore s < tiktokScore v
      · rw [if_pos hc]
        exact le_of_lt hc
      · rw [if_neg hc]
    · rcases List.mem_cons.mp h1 with h2 | h2
      · refine le_trans ?_ hhead
        rw [h2]
        by_cases hc : tiktokScore s < tiktokScore v
        · rw [if_pos hc]
        · rw [if_neg hc]
          exact le_of_not_lt hc
      · exact ih _ w (List.mem_cons_of_mem _ h2)

/-- C6 (amended): when at least one returned video has a reported duration
in `[15, 60]`, the selection returns a duration-suitable video of maximal
combined score (`relevanceScore` plus a 0.3 HD bonus) among the suitable
ones — not necessarily the first suitable in returned order; when none is
suitable it returns the first returned item; it returns `null` exactly when
the returned list is empty. -/
theorem c6_amended_selection_rule (mr : MediaSearchResult) :
    (mr.videos = [] → getBestVideoForTikTok mr = none) ∧
    (mr.videos ≠ [] → ∃ v, getBestVideoForTikTok mr = some v) ∧
    (∀ s ss, mr.videos.filter suitableDuration = s :: ss →
      ∃ v, getBestVideoForTikTok mr = some v ∧ v ∈ s :: ss ∧
        ∀ w ∈ s :: ss, tiktokScore w ≤ tiktokScore v) ∧
    (mr.videos.filter suitableDuration = [] →
      getBestVideoForTikTok mr = mr.videos.head?) := by
  refine ⟨?_, ?_, ?_, ?_⟩
  · intro h
    simp [getBestVideoForTikTok, h]
  · intro h
    rcases hf : mr.videos.filter suitableDuration with _ | ⟨s, ss⟩
    · rcases hv : mr.videos with _ | ⟨v0, tl⟩
      · exact absurd hv h
      · refine ⟨v0, ?_⟩
        simp only [getBestVideoForTikTok, hf]
        rw [hv]
        rfl
    · exact ⟨pickTopScored s ss, by simp [getBestVideoForTikTok, hf]⟩
  · intro s ss hf
    exact ⟨pickTopScored s ss, by simp [getBestVideoForTikTok, hf],
      pickTopScored_mem ss s, pickTopScored_le ss s⟩
  · intro hf
    simp [getBestVideoForTikTok, hf]

/-- A suitable zero-score video listed first. -/
def cexVideoFirst : MediaItem :=
  { id := 1, url := "u1", previewUrl := "p1", type := .video,
    duration := some 20, relevanceScore := some 0, quality := .sd }

/-- A suitable higher-score video listed second. -/
def cexVideoSecond : MediaItem :=
  { id := 2, url := "u2", previewUrl := "p2", type := .video,
    duration := some 30, relevanceScore := some 1, quality := .sd }

/-- A search result listing the low-score suitable video first. -/
def cexSearchResult : MediaSearchResult :=
  { videos := [cexVideoFirst, cexVideoSecond], images := [],
    searchQuery := "q", totalFound := 2 }

/-- Counterexample to C6 as stated: the first returned video has a duration
inside `[15, 60]`, yet the selection returns the second (higher-scoring)
video, not the first suitable one in returned order. -/
theorem c6_counterexample_not_first_suitable :
    cexSearchResult.videos.head? = some cexVideoFirst ∧
    suitableDuration cexVideoFirst = true ∧
    getBestVideoForTikTok cexSearchResult = some cexVideoSecond ∧
    cexVideoSecond ≠ cexVideoFirst := by
  have hf : cexSearchResult.videos.filter suitableDuration =
      [cexVideoFirst, cexVideoSecond] := by decide
  have hlt : tiktokScore cexVideoFirst < tiktokScore cexVideoSecond := by
    norm_num [tiktokScore, cexVideoFirst, cexVideoSecond]
  refine ⟨rfl, by decide, ?_, by decide⟩
  simp [getBestVideoForTikTok, hf, pickTopScored, hlt]

/-- Witness for the amended C6 at the concrete search result. -/
theorem c6_amended_witness :
    cexSearchResult.videos.filter suitableDuration =
      cexVideoFirst :: [cexVideoSecond] ∧
    (∃ v, getBestVideoForTikTok cexSearchResult = some v ∧
      v ∈ cexVideoFirst :: [cexVideoSecond] ∧
      ∀ w ∈ cexVideoFirst :: [cexVideoSecond],
        tiktokScore w ≤ tiktokScore v) :=
  ⟨by decide,
    (c6_amended_selection_rule cexSearchResult).2.2.1 cexVideoFirst
      [cexVideoSecond] (by decide)⟩

/-- `chunk3` produces `⌈n / 3⌉` groups. -/
theorem chunk3_length {α : Type} (l : List α) :
    (chunk3 l).length = (l.length + 2) / 3 := by
  induction l using chunk3.induct with
  | case1 => simp [chunk3]
  | case2 a => simp [chunk3]
  | case3 a b => simp [chunk3]
  | case4 a b c rest ih =>
    simp only [chunk3, List.length_cons, ih]
    omega

/-- `cuesOf` has one cue per chunk. -/
theorem cuesOf_length (l : List (List Char)) :
    ∀ i, (cuesOf i l).length = l.length := by
  induction l with
  | nil => intro i; rfl
  | cons c rest ih =>
    intro i
    simp only [cuesOf, List.length_cons, ih]

/-- The subtitle track is contiguous from time `t`: the first cue starts at
`t`, every cue's interval is nonempty, and each next cue starts where the
previous one ends (so cues are non-overlapping and strictly increasing). -/
def contiguousFrom : ℕ → List Cue → Prop
  | _, [] => True
  | t, c :: rest => c.startTime = t ∧ t < c.endTime ∧ contiguousFrom c.endTime rest

/-- End time of a subtitle track started at `t` (`t` itself if empty). -/
def cuesEndFrom : ℕ → List Cue → ℕ
  | t, [] => t
  | _, c :: rest => cuesEndFrom c.endTime rest

/-- The chunk cues form a contiguous track from `2 * i`. -/
theorem cuesOf_contiguous (l : List (List Char)) :
    ∀ i, contiguousFrom (2 * i) (cuesOf i l) := by
  induction l with
  | nil => intro i; trivial
  | cons c rest ih =>
    intro i
    refine ⟨rfl, ?_, ih (i + 1)⟩
    show 2 * i < 2 * (i + 1)
    omega

/-- The chunk cues end at `2 * (i + length)` when there is at least one. -/
theorem cuesOf_endFrom (l : List (List Char)) :
    ∀ i t, l ≠ [] → cuesEndFrom t (cuesOf i l) = 2 * (i + l.length) := by
  induction l with
  | nil => intro i t h; exact absurd rfl h
  | cons c rest ih =>
    intro i t _
    rcases rest with _ | ⟨d, ds⟩
    · simp [cuesOf, cuesEndFrom]
    · have : cuesEndFrom t (cuesOf i (c :: d :: ds)) =
          cuesEndFrom (2 * (i + 1)) (cuesOf (i + 1) (d :: ds)) := rfl
      rw [this, ih (i + 1) _ (by simp)]
      simp only [List.length_cons]
      omega

/-- Contiguity glues across an append when the tail starts at the end time
of the front. -/
theorem contiguousFrom_append (xs ys : List Cue) :
    ∀ t, contiguousFrom t xs → contiguousFrom (cuesEndFrom t xs) ys →
      contiguousFrom t (xs ++ ys) := by
  induction xs with
  | nil => intro t _ h2; exact h2
  | cons c xs ih =>
    intro t h1 h2
    obtain ⟨ha, hb, hc⟩ := h1
    exact ⟨ha, hb, ih c.endTime hc h2⟩

/-- End time composes across an append. -/
theorem cuesEndFrom_append (xs ys : List Cue) :
    ∀ t, cuesEndFrom t (xs ++ ys) = cuesEndFrom (cuesEndFrom t xs) ys := by
  induction xs with
  | nil => intro t; rfl
  | cons c xs ih => intro t; exact ih c.endTime

/-- The word list of `generateSubtitles` is never empty (JavaScript's
`split` always yields at least one piece). -/
theorem subtitleWords_ne_nil (script : List Char) : subtitleWords script ≠ [] :=
  jsSplitChar_ne_nil ' ' (cleanScriptOf script)

/-- C4 (amended): for a script whose cleaned text splits into `N` words,
`generateSubtitles` produces `⌈N / 3⌉` two-second word cues — chunk size and
cue length are fixed, the narration duration is not an input — plus exactly
one trailing empty cue whenever `2⌈N / 3⌉ < 60`, extending coverage to
`max(2⌈N / 3⌉ + 5, 30)`; the cue track is contiguous, non-overlapping,
starts at 0, strictly increases, and ends at or after second 30 (not at or
after the narration duration, which the builder never sees). -/
theorem c4_amended_subtitle_track (script : List Char) :
    (generateSubtitles script).length =
      ((subtitleWords script).length + 2) / 3 +
        (if 2 * (((subtitleWords script).length + 2) / 3) < 60 then 1 else 0) ∧
    contiguousFrom 0 (generateSubtitles script) ∧
    cuesEndFrom 0 (generateSubtitles script) =
      (if 2 * (((subtitleWords script).length + 2) / 3) < 60 then
        max (2 * (((subtitleWords script).length + 2) / 3) + 5) 30
      else 2 * (((subtitleWords script).length + 2) / 3)) ∧
    30 ≤ cuesEndFrom 0 (generateSubtitles script) := by
  have hwords : subtitleWords script ≠ [] := subtitleWords_ne_nil script
  set ws := subtitleWords script with hws
  set chunks := (chunk3 ws).map (List.intercalate [' ']) with hch
  have hclen : chunks.length = (ws.length + 2) / 3 := by
    rw [hch, List.length_map, chunk3_length]
  have hwpos : 1 ≤ ws.length := List.length_pos.mpr hwords
  have hcpos : 1 ≤ chunks.length := by omega
  have hne : chunks ≠ [] := by
    intro h
    rw [h] at hcpos
    exact absurd hcpos (by decide)
  have hgen : generateSubtitles script =
      (if chunks.length * 2 < 60 then
        cuesOf 0 chunks ++
          [⟨chunks.length * 2, max (chunks.length * 2 + 5) 30, []⟩]
      else cuesOf 0 chunks) := rfl
  rw [hgen]
  by_cases hlt : chunks.length * 2 < 60
  · have h2 : 2 * ((ws.length + 2) / 3) < 60 := by omega
    rw [if_pos hlt, if_pos h2, if_pos h2]
    refine ⟨?_, ?_, ?_, ?_⟩
    · rw [List.length_append, cuesOf_length]
      simp only [List.length_cons, List.length_nil]
      omega
    · apply contiguousFrom_append
      · exact cuesOf_contiguous chunks 0
      · rw [cuesOf_endFrom chunks 0 0 hne]
        refine ⟨?_, ?_, trivial⟩
        · show chunks.length * 2 = 2 * (0 + chunks.length)
          omega
        · exact Nat.lt_of_lt_of_le (by omega) (le_max_left _ _)
    · rw [cuesEndFrom_append, cuesOf_endFrom chunks 0 0 hne]
      show max (chunks.length * 2 + 5) 30 = _
      rw [hclen, Nat.mul_comm ((ws.length + 2) / 3) 2]
    · rw [cuesEndFrom_append, cuesOf_endFrom chunks 0 0 hne]
      exact le_max_right _ _
  · have h2 : ¬ 2 * ((ws.length + 2) / 3) < 60 := by omega
    rw [if_neg hlt, if_neg h2, if_neg h2]
    refine ⟨?_, ?_, ?_, ?_⟩
    · rw [cuesOf_length]
      omega
    · exact cuesOf_contiguous chunks 0
    · rw [cuesOf_endFrom chunks 0 0 hne]
      omega
    · rw [cuesOf_endFrom chunks 0 0 hne]
      omega

/-- Counterexample to C4 as stated: a three-word script gives one chunk, so
the claim predicts exactly `⌈3 / 3⌉ = 1` cue, but the builder emits 2 (the
word cue plus the trailing empty cue). -/
theorem c4_counterexample_extra_cue :
    (subtitleWords "a b c".data).length = 3 ∧
    (generateSubtitles "a b c".data).length = 2 ∧
    (generateSubtitles "a b c".data).length ≠ (3 + 3 - 1) / 3 := by decide

/-- The segment the planning loop builds at index `j`. -/
def segAt (sentences : List (List Char)) (keyPoints : List String)
    (L D : ℚ) (j : ℕ) : Segment :=
  { text := jsTrim (sentences.getD j []),
    searchQuery := extractSearchQuery (jsTrim (sentences.getD j [])) keyPoints,
    startTime := (j : ℚ) * L,
    duration := min L (D - (j : ℚ) * L) }

/-- Closed form of the planning loop: from index `i` it emits the segments
at `i, i + 1, …` until either the sentences or the time budget
(`⌈D / L⌉` slots) run out. -/
theorem segLoop_eq_map (s : List (List Char)) (kps : List String)
    (L D : ℚ) (hL : 0 < L) :
    ∀ fuel i, s.length - i ≤ fuel →
      segLoop s kps L D i =
        (List.range (min (s.length - i) (⌈D / L⌉₊ - i))).map
          (fun m => segAt s kps L D (i + m)) := by
  intro fuel
  induction fuel with
  | zero =>
    intro i hi
    rw [segLoop, dif_neg]
    · have hmin : min (s.length - i) (⌈D / L⌉₊ - i) = 0 := by omega
      rw [hmin]
      rfl
    · rintro ⟨h1, _⟩
      omega
  | succ fuel ih =>
    intro i hi
    by_cases hilen : i < s.length
    · by_cases hC : (i : ℚ) * L < D
      · have hk : i < ⌈D / L⌉₊ := by
          rw [Nat.lt_ceil, lt_div_iff hL]
          exact hC
        have hmin : min (s.length - i) (⌈D / L⌉₊ - i) =
            min (s.length - (i + 1)) (⌈D / L⌉₊ - (i + 1)) + 1 := by omega
        rw [segLoop, dif_pos ⟨hilen, hC⟩, ih (i + 1) (by omega), hmin,
          List.range_succ_eq_map, List.map_cons, List.map_map]
        congr 1
        apply List.map_congr_left
        intro m _
        simp only [Function.comp_apply]
        congr 1
        omega
      · have hk : ⌈D / L⌉₊ ≤ i := by
          by_contra hcon
          push_neg at hcon
          rw [Nat.lt_ceil, lt_div_iff hL] at hcon
          exact hC hcon
        rw [segLoop, dif_neg]
        · have hmin : min (s.length - i) (⌈D / L⌉₊ - i) = 0 := by omega
          rw [hmin]
          rfl
        · rintro ⟨_, h2⟩
          exact hC h2
    · rw [segLoop, dif_neg]
      · have hmin : min (s.length - i) (⌈D / L⌉₊ - i) = 0 := by omega
        rw [hmin]
        rfl
      · rintro ⟨h1, _⟩
        exact hilen h1

/-- The planned durations from index `i` sum to at most the remaining
budget `D - i·L` (and at most 0 budget means no more segments). -/
theorem segLoop_sum_le (s : List (List Char)) (kps : List String)
    (L D : ℚ) (hL : 0 < L) :
    ∀ fuel i, s.length - i ≤ fuel →
      ((segLoop s kps L D i).map Segment.duration).sum ≤
        max 0 (D - (i : ℚ) * L) := by
  intro fuel
  induction fuel with
  | zero =>
    intro i hi
    rw [segLoop, dif_neg]
    · simp
    · rintro ⟨h1, _⟩
      omega
  | succ fuel ih =>
    intro i hi
    by_cases hcond : i < s.length ∧ (i : ℚ) * L < D
    · obtain ⟨hilen, hC⟩ := hcond
      rw [segLoop, dif_pos ⟨hilen, hC⟩, List.map_cons, List.sum_cons]
      have hrest := ih (i + 1) (by omega)
      have hmax : max 0 (D - (i : ℚ) * L) = D - (i : ℚ) * L :=
        max_eq_right (by linarith)
      rw [hmax]
      by_cases h2 : D - ((i : ℚ) + 1) * L ≤ 0
      · have : max 0 (D - ((i + 1 : ℕ) : ℚ) * L) = 0 := by
          apply max_eq_left
          push_cast
          linarith
        rw [this] at hrest
        have hmin : min L (D - (i : ℚ) * L) ≤ D - (i : ℚ) * L :=
          min_le_right _ _
        calc Segment.duration (segAt s kps L D i) +
              ((segLoop s kps L D (i + 1)).map Segment.duration).sum
            ≤ min L (D - (i : ℚ) * L) + 0 := by
              exact add_le_add (le_of_eq rfl) hrest
          _ ≤ D - (i : ℚ) * L := by
              rw [add_zero]
              exact hmin
      · push_neg at h2
        have : max 0 (D - ((i + 1 : ℕ) : ℚ) * L) = D - ((i : ℚ) + 1) * L := by
          push_cast
          exact max_eq_right (by linarith)
        rw [this] at hrest
        have hminL : min L (D - (i : ℚ) * L) ≤ L := min_le_left _ _
        calc Segment.duration (segAt s kps L D i) +
              ((segLoop s kps L D (i + 1)).map Segment.duration).sum
            ≤ L + (D - ((i : ℚ) + 1) * L) := add_le_add hminL hrest
          _ ≤ D - (i : ℚ) * L := by ring_nf; linarith
    · rw [segLoop, dif_neg hcond]
      simp

/-- C5: for a script with `S` sentences, a positive slot length `L` (the
code fixes `L = 4`) and a positive total duration `D`, the planner emits
exactly `min(S, ⌈D / L⌉)` segments, the `j`-th starting at `j·L`, every
segment but possibly the last lasting exactly `L`, and the summed durations
never exceeding `D`; `createContentSegments` is this plan at `L = 4`. -/
theorem c5_segment_plan (script : List Char) (keyPoints : List String)
    (L D : ℚ) (hL : 0 < L) (hD : 0 < D) :
    (segLoop (sentencesOf script) keyPoints L D 0).length =
      min (sentencesOf script).length ⌈D / L⌉₊ ∧
    (∀ j st, (segLoop (sentencesOf script) keyPoints L D 0).get? j = some st →
      st.startTime = (j : ℚ) * L) ∧
    (∀ j st, (segLoop (sentencesOf script) keyPoints L D 0).get? j = some st →
      j + 1 < (segLoop (sentencesOf script) keyPoints L D 0).length →
      st.duration = L) ∧
    ((segLoop (sentencesOf script) keyPoints L D 0).map Segment.duration).sum
      ≤ D ∧
    createContentSegments script keyPoints D =
      segLoop (sentencesOf script) keyPoints 4 D 0 := by
  have hclosed := segLoop_eq_map (sentencesOf script) keyPoints L D hL
    (sentencesOf script).length 0 (by omega)
  simp only [Nat.sub_zero] at hclosed
  have hlen : (segLoop (sentencesOf script) keyPoints L D 0).length =
      min (sentencesOf script).length ⌈D / L⌉₊ := by
    rw [hclosed, List.length_map, List.length_range]
  refine ⟨hlen, ?_, ?_, ?_, rfl⟩
  · intro j st hst
    rw [hclosed, List.get?_map] at hst
    have hj : j < min (sentencesOf script).length ⌈D / L⌉₊ := by
      by_contra hcon
      rw [List.get?_eq_none.mpr (by rw [List.length_range]; omega)] at hst
      exact Option.noConfusion hst
    rw [List.get?_range hj] at hst
    have : st = segAt (sentencesOf script) keyPoints L D (0 + j) :=
      (Option.some.injEq _ _).mp hst.symm
    rw [this]
    show ((0 + j : ℕ) : ℚ) * L = (j : ℚ) * L
    norm_num
  · intro j st hst hj1
    rw [hclosed, List.get?_map] at hst
    rw [hlen] at hj1
    have hj : j < min (sentencesOf script).length ⌈D / L⌉₊ := by omega
    rw [List.get?_range hj] at hst
    have hstv : st = segAt (sentencesOf script) keyPoints L D (0 + j) :=
      (Option.some.injEq _ _).mp hst.symm
    have hjk : j + 1 < ⌈D / L⌉₊ := by omega
    have hq : ((j : ℚ) + 1) < D / L := by
      have := Nat.lt_ceil.mp hjk
      push_cast at this
      linarith
    have hqL : ((j : ℚ) + 1) * L < D := (lt_div_iff hL).mp hq
    rw [hstv]
    show min L (D - ((0 + j : ℕ) : ℚ) * L) = L
    apply min_eq_left
    push_cast
    nlinarith
  · have hsum := segLoop_sum_le (sentencesOf script) keyPoints L D hL
      (sentencesOf script).length 0 (by omega)
    have : max 0 (D - ((0 : ℕ) : ℚ) * L) = D := by
      push_cast
      rw [zero_mul, sub_zero]
      exact max_eq_right (le_of_lt hD)
    rw [this] at hsum
    exact hsum

/-- `lastIndexOf` never reports an index beyond its `fromIdx`. -/
theorem jsLastIndexOfFrom_le (s : List Char) (c : Char) (f : ℕ) :
    jsLastIndexOfFrom s c f ≤ (f : ℤ) := by
  unfold jsLastIndexOfFrom
  rcases h : ((List.range (min (f + 1) s.length)).filter
      (fun i => s.getD i ' ' == c)).getLast? with _ | i
  · show (-1 : ℤ) ≤ (f : ℤ)
    omega
  · show (i : ℤ) ≤ (f : ℤ)
    have hx : i ∈ (List.range (min (f + 1) s.length)).filter
        (fun i => s.getD i ' ' == c) := by
      obtain ⟨hne, heq⟩ := List.mem_getLast?_eq_getLast (show i ∈ _ from h)
      rw [heq]
      exact List.getLast_mem hne
    have hr := List.mem_range.mp (List.mem_of_mem_filter hx)
    omega

/-- Helper: the maximum of three indices bounded by `n` stays bounded. -/
theorem toNat_max3_le {a b c : ℤ} {n : ℕ} (ha : a ≤ n) (hb : b ≤ n)
    (hc : c ≤ n) : (max (max a b) c).toNat ≤ n :=
  Int.toNat_le.mpr (max_le (max_le ha hb) hc)

/-- One iteration's cut never reaches further than `maxLength + 1` characters
past `start` (one further than `maxLength`: the sentence-terminator branch
cuts just *after* a terminator found at index `start + maxLength`). -/
theorem splitTextEnd_le (text : List Char) (maxLength start : ℕ) :
    splitTextEnd text maxLength start ≤ start + maxLength + 1 := by
  have hp := jsLastIndexOfFrom_le text '.' (min text.length (start + maxLength))
  have hee := jsLastIndexOfFrom_le text '!' (min text.length (start + maxLength))
  have hq := jsLastIndexOfFrom_le text '?' (min text.length (start + maxLength))
  have hs := jsLastIndexOfFrom_le text ' ' (min text.length (start + maxLength))
  have hmin : min text.length (start + maxLength) ≤ start + maxLength :=
    min_le_right _ _
  simp only [splitTextEnd]
  split_ifs with h1 h2 h3
  · have := toNat_max3_le hp hee hq
    omega
  · have := Int.toNat_le.mpr hs
    omega
  · omega
  · omega

/-- One iteration's cut strictly advances the start index (termination). -/
theorem splitTextEnd_gt (text : List Char) (maxLength start : ℕ)
    (hm : 1 ≤ maxLength) (hs : start < text.length) :
    start < splitTextEnd text maxLength start := by
  have hmin := le_min (show start + 1 ≤ text.length by omega)
    (show start + 1 ≤ start + maxLength by omega)
  simp only [splitTextEnd]
  split_ifs with h1 h2 h3
  · have := Int.lt_toNat.mpr h2
    omega
  · have := Int.lt_toNat.mpr h3
    omega
  · omega
  · omega

/-- Trimming only shrinks a string. -/
theorem jsTrim_length_le (s : List Char) : (jsTrim s).length ≤ s.length := by
  simp only [jsTrim, List.length_reverse]
  exact le_trans (length_dropWhile_le' _ _)
    (by rw [List.length_reverse]; exact length_dropWhile_le' _ _)

/-- A substring is no longer than its index span. -/
theorem jsSubstring_length_le (s : List Char) (a b : ℕ) :
    (jsSubstring s a b).length ≤ b - a := by
  simp only [jsSubstring, List.length_take]
  exact min_le_left _ _

/-- With `maxLength ≥ 1` and fuel at least the remaining length, the
`splitText` loop finishes, and every part it pushes has at most
`maxLength + 1` characters. -/
theorem splitTextLoop_terminates (text : List Char) (maxLength : ℕ)
    (hm : 1 ≤ maxLength) :
    ∀ fuel start, text.length - start ≤ fuel →
      ∃ parts, splitTextLoop text maxLength fuel start = some parts ∧
        ∀ p ∈ parts, p.length ≤ maxLength + 1 := by
  intro fuel
  induction fuel with
  | zero =>
    intro start h
    refine ⟨[], ?_, by simp⟩
    simp only [splitTextLoop]
    rw [if_neg (by omega)]
  | succ fuel ih =>
    intro start h
    by_cases hlt : start < text.length
    · have hgt := splitTextEnd_gt text maxLength start hm hlt
      have hle := splitTextEnd_le text maxLength start
      obtain ⟨rest, hrest, hbound⟩ :=
        ih (splitTextEnd text maxLength start) (by omega)
      refine ⟨jsTrim (jsSubstring text start (splitTextEnd text maxLength start))
          :: rest, ?_, ?_⟩
      · simp only [splitTextLoop]
        rw [if_pos hlt, hrest]
        rfl
      · intro p hp
        rcases List.mem_cons.mp hp with heq | hp2
        · rw [heq]
          calc (jsTrim (jsSubstring text start
                (splitTextEnd text maxLength start))).length
              ≤ (jsSubstring text start (splitTextEnd text maxLength start)).length :=
                jsTrim_length_le _
            _ ≤ splitTextEnd text maxLength start - start :=
                jsSubstring_length_le _ _ _
            _ ≤ maxLength + 1 := by omega
        · exact hbound p hp2
    · refine ⟨[], ?_, by simp⟩
      simp only [splitTextLoop]
      rw [if_neg hlt]

/-- C10 (amended): for every text and every `maxLength ≥ 1` the splitter's
loop terminates (each iteration strictly advances its start index, so fuel
`text.length` suffices), and every part it returns is non-empty and at most
`maxLength + 1` characters long (one more than the claimed `maxLength`:
cutting just past a sentence terminator found at the boundary index can
overshoot by one character). -/
theorem c10_amended_splitText (text : List Char) (maxLength : ℕ)
    (h : 1 ≤ maxLength) :
    ∃ parts, splitText text maxLength = some parts ∧
      ∀ p ∈ parts, p ≠ [] ∧ p.length ≤ maxLength + 1 := by
  obtain ⟨parts0, hp0, hb⟩ :=
    splitTextLoop_terminates text maxLength h text.length 0 (by omega)
  refine ⟨parts0.filter (fun p => p.length > 0), ?_, ?_⟩
  · simp [splitText, hp0]
  · intro p hp
    have hmem := List.mem_of_mem_filter hp
    have hprop := List.of_mem_filter hp
    refine ⟨?_, hb p hmem⟩
    intro hnil
    rw [hnil] at hprop
    simp at hprop

/-- Counterexample to C10 as stated: with `maxLength = 2` the text `ab.cd`
splits into a first part of 3 characters — the sentence-terminator branch
cuts after the period at index 2, exceeding `maxLength`. -/
theorem c10_counterexample_overlong_part :
    splitText "ab.cd".data 2 = some ["ab.".data, "cd".data] ∧
    "ab.".data ∈ ["ab.".data, "cd".data] ∧
    ("ab.".data).length = 3 ∧ ¬ (("ab.".data).length ≤ 2) := by decide

/-- Witness for the amended C10 at the concrete overshooting input. -/
theorem c10_amended_witness :
    1 ≤ 2 ∧ (∃ parts, splitText "ab.cd".data 2 = some parts ∧
      ∀ p ∈ parts, p ≠ [] ∧ p.length ≤ 2 + 1) :=
  ⟨by decide, c10_amended_splitText "ab.cd".data 2 (by decide)⟩

/-- Witness for C5 at a concrete two-sentence script, slot length 4 and
duration 10. -/
theorem c5_segment_witness :
    (0 : ℚ) < 4 ∧ (0 : ℚ) < 10 ∧
    ((segLoop (sentencesOf "Hi. Ok.".data) [] 4 10 0).length =
        min (sentencesOf "Hi. Ok.".data).length ⌈(10 : ℚ) / 4⌉₊ ∧
      (∀ j st,
        (segLoop (sentencesOf "Hi. Ok.".data) [] 4 10 0).get? j = some st →
        st.startTime = (j : ℚ) * 4) ∧
      (∀ j st,
        (segLoop (sentencesOf "Hi. Ok.".data) [] 4 10 0).get? j = some st →
        j + 1 < (segLoop (sentencesOf "Hi. Ok.".data) [] 4 10 0).length →
        st.duration = 4) ∧
      ((segLoop (sentencesOf "Hi. Ok.".data) [] 4 10 0).map
          Segment.duration).sum ≤ 10 ∧
      createContentSegments "Hi. Ok.".data [] 10 =
        segLoop (sentencesOf "Hi. Ok.".data) [] 4 10 0) :=
  ⟨by norm_num, by norm_num,
    c5_segment_plan "Hi. Ok.".data [] 4 10 (by norm_num) (by norm_num)⟩

/-- A 5001-character text: 2500 `a`s, a space, 2500 `b`s. -/
def longTextCex : List Char :=
  List.replicate 2500 'a' ++ ' ' :: List.replicate 2500 'b'

/-- C7: on any text over the 2500-character ceiling the long-text path
returns `mergeAudioFiles` of the ordered chunk audios with *no* duration;
`mergeAudioFiles` keeps only the first file, and the first file differs
from the concatenation of all files whenever any later audio is nonempty —
so the returned audio is the first chunk's alone, against both the claim and
the function's own documentation. -/
theorem c7_merge_keeps_first_chunk_only (audioOf : List Char → Option (List ℕ))
    (text : List Char) (h : 2500 < text.length) :
    synthesizeLongText audioOf text =
      (splitText text 2500).bind (fun parts =>
        (parts.mapM audioOf).map (fun audioFiles =>
          ({ audio := mergeAudioFiles audioFiles, duration := none } :
            AudioResult))) ∧
    (∀ f rest, mergeAudioFiles (f :: rest) = f) ∧
    (∀ (f j : List ℕ), j ≠ [] → f ≠ f ++ j) := by
  refine ⟨?_, fun f rest => rfl, ?_⟩
  · simp only [synthesizeLongText, if_neg (by omega : ¬ text.length ≤ 2500)]
    rcases splitText text 2500 with _ | parts
    · rfl
    · rcases h2 : parts.mapM audioOf with _ | audioFiles <;>
        simp only [Option.some_bind'] <;> rw [h2] <;> rfl
  · intro f j hj hcontra
    have hlen := congrArg List.length hcontra
    rw [List.length_append] at hlen
    have : j.length = 0 := by omega
    exact hj (List.length_eq_zero.mp this)

/-- Witness for the C7 theorem at the concrete 5001-character text. -/
theorem c7_merge_witness :
    2500 < longTextCex.length ∧
    (synthesizeLongText (fun p => some [p.length]) longTextCex =
      (splitText longTextCex 2500).bind (fun parts =>
        (parts.mapM (fun p => some [p.length])).map (fun audioFiles =>
          ({ audio := mergeAudioFiles audioFiles, duration := none } :
            AudioResult))) ∧
    (∀ f rest, mergeAudioFiles (f :: rest) = f) ∧
    (∀ (f j : List ℕ), j ≠ [] → f ≠ f ++ j)) :=
  ⟨by simp only [longTextCex, List.length_append, List.length_cons,
      List.length_replicate]; omega,
    c7_merge_keeps_first_chunk_only (fun p => some [p.length]) longTextCex
      (by simp only [longTextCex, List.length_append, List.length_cons,
        List.length_replicate]; omega)⟩
